import Mathlib

/-!
Shallow embedding of the kreate-index entry point and configuration logic.

Sources embedded here:
* `src/config.ts` — environment-driven chain configuration (`chain`,
  `parseChainIndexBegin`, `parseChainIndexEnd`).
* `src/index.ts` — process entry point: argument expansion and selection,
  shutdown bookkeeping, the process-level notification handler, exit codes.
* `src/indexers/ai/logo.ts` — the ai.logo polling indexer: schema setup,
  context hydration, and S3 task discovery.

JavaScript string primitives (`startsWith`, `endsWith`, `split`, `parseInt`,
`indexOf`, `Set`) are modelled by structurally recursive functions over
`List Char` / `List String` so that every definition evaluates inside the
kernel.
-/

namespace KreateIndex

/-! ## JavaScript string and collection primitives -/

/-- Model of checking that `p` is a prefix of `s`, on character lists. -/
def charsPrefixEq : List Char → List Char → Bool
  | [], _ => true
  | _ :: _, [] => false
  | p :: ps, c :: cs => p == c && charsPrefixEq ps cs

/-- Model of JavaScript `s.startsWith(p)`. -/
def jsStartsWith (s p : String) : Bool :=
  charsPrefixEq p.data s.data

/-- Model of JavaScript `s.endsWith(p)`. -/
def jsEndsWith (s p : String) : Bool :=
  charsPrefixEq p.data.reverse s.data.reverse

/-- Split a character list at every occurrence of `sep` (JavaScript
`String.prototype.split` with a single-character separator, no limit). -/
def splitChars (sep : Char) : List Char → List (List Char)
  | [] => [[]]
  | a :: rest =>
    let r := splitChars sep rest
    if a == sep then [] :: r
    else
      match r with
      | [] => [[a]]
      | g :: gs => (a :: g) :: gs

/-- Model of JavaScript `s.split(sep)` returning strings. -/
def jsSplit (s : String) (sep : Char) : List String :=
  (splitChars sep s.data).map String.mk

/-- The whitespace characters skipped by JavaScript `parseInt`. -/
def isJsWhitespace (c : Char) : Bool :=
  c == ' ' || c == '\t' || c == '\n' || c == '\r'

/-- Numeric value of a run of decimal digits. -/
def digitsVal (ds : List Char) : Nat :=
  ds.foldl (fun acc c => acc * 10 + (c.toNat - '0'.toNat)) 0

/-- Model of JavaScript `parseInt(s)` with no radix argument; `none`
models `NaN`. Skips leading whitespace, accepts an optional sign, reads
the leading run of decimal digits and ignores the rest. (The `0x` hex
prefix special case of `parseInt` is not modelled; the theorems below
never depend on the numeric value of a parsed slot.) -/
def jsParseInt (s : String) : Option Int :=
  let t := s.data.dropWhile isJsWhitespace
  let signAndRest : Int × List Char :=
    match t with
    | '-' :: r => (-1, r)
    | '+' :: r => (1, r)
    | r => (1, r)
  let ds := signAndRest.2.takeWhile Char.isDigit
  if ds.isEmpty then none
  else some (signAndRest.1 * (digitsVal ds : Int))

/-- Boolean membership in a list of strings (JavaScript `Array.includes` /
`Set.has`). -/
def listHas : List String → String → Bool
  | [], _ => false
  | a :: rest, x => a == x || listHas rest x

/-- Model of JavaScript `Set.add` on an insertion-ordered string set. -/
def setAdd (s : List String) (x : String) : List String :=
  if listHas s x then s else s ++ [x]

/-- Model of JavaScript `Array.prototype.indexOf`: 0-based index of the
first occurrence, `-1` when absent. -/
def jsIndexOf : List String → String → Int
  | [], _ => -1
  | a :: rest, x =>
    if a == x then 0
    else
      let r := jsIndexOf rest x
      if r < 0 then -1 else r + 1

/-- Model of `Array.from(new Set(l))`: deduplicate keeping the first
occurrence of each element, in insertion order. -/
def dedupFirst : List String → List String
  | [] => []
  | a :: rest => if listHas rest a then a :: (dedupFirst rest).filter (· != a) else a :: dedupFirst rest

/-! ## config.ts -/

/-- A chain point, as in `@cardano-ogmios/schema`'s `Point`. -/
structure ChainPoint where
  slot : Int
  hash : String
deriving DecidableEq, Repr

/-- The resolved `begin` position: `"origin"`, `"tip"`, or a point. -/
inductive ChainIndexBegin where
  | origin
  | tip
  | point (p : ChainPoint)
deriving DecidableEq, Repr

/-- Model of `parseChainIndexBegin` (src/config.ts:181-190). `none` input
models an unset environment variable; an empty string is falsy in
JavaScript and is treated the same. A thrown `assert` is an `error`. -/
def parseChainIndexBegin (raw : Option String) : Except String (Option ChainIndexBegin) :=
  match raw with
  | none => Except.ok none
  | some r =>
    if r = "" then Except.ok none
    else if r = "origin" then Except.ok (some ChainIndexBegin.origin)
    else if r = "tip" then Except.ok (some ChainIndexBegin.tip)
    else
      -- const [slotStr, hash] = raw.split(":", 2)
      let parts := (jsSplit r ':').take 2
      let slotStr := parts.headD ""
      let hash? := parts[1]?
      match jsParseInt slotStr, hash? with
      | some slot, some hash =>
        -- assert(!isNaN(slot) && hash, "Must be <slot>:<hash>")
        if hash = "" then Except.error "Must be <slot>:<hash>"
        else Except.ok (some (ChainIndexBegin.point ⟨slot, hash⟩))
      | _, _ => Except.error "Must be <slot>:<hash>"

/-- Model of the `begin` resolution inside `chain` (src/config.ts:136-140):
`parseChainIndexBegin(process.env.CHAIN_INDEX_BEGIN) ?? bootstrap`, where
`bootstrap` is the first configured bootstrap point when the configured
list is non-empty, and missing both is fatal. -/
def chainResolveBegin (envBegin : Option String) (bootstrap : List ChainPoint) :
    Except String ChainIndexBegin :=
  match parseChainIndexBegin envBegin with
  | Except.error m => Except.error m
  | Except.ok (some b) => Except.ok b
  | Except.ok none =>
    match bootstrap with
    | p :: _ => Except.ok (ChainIndexBegin.point p)
    | [] => Except.error "CHAIN_INDEX_BEGIN or 'bootstrap' in config must be set"

example : parseChainIndexBegin (some "origin") = Except.ok (some ChainIndexBegin.origin) := rfl
example : parseChainIndexBegin (some "123:abc")
    = Except.ok (some (ChainIndexBegin.point ⟨123, "abc"⟩)) := rfl
example : parseChainIndexBegin (some "123:") = Except.error "Must be <slot>:<hash>" := rfl
example : parseChainIndexBegin (some "x:abc") = Except.error "Must be <slot>:<hash>" := rfl
example : chainResolveBegin (some "origin") [⟨5, "aa"⟩]
    = Except.ok ChainIndexBegin.origin := rfl
example : chainResolveBegin none [⟨5, "aa"⟩]
    = Except.ok (ChainIndexBegin.point ⟨5, "aa"⟩) := rfl
example : chainResolveBegin none []
    = Except.error "CHAIN_INDEX_BEGIN or 'bootstrap' in config must be set" := rfl

/-! ## index.ts — indexer registry and argument processing -/

/-- The keys of the `AllIndexers` object (src/index.ts:131-243), in
declaration order. -/
def AllIndexerKeys : List String :=
  ["chain",
   "ipfs.project_info",
   "ipfs.project_announcement",
   "ai.logo",
   "ai.podcast",
   "ai.ocr",
   "ai.project_moderation",
   "discord.project_alert",
   "discord.backing_alert",
   "discord.withdraw_funds_alert",
   "discord.delegation_alert",
   "discord.project_update_alert",
   "discord.project_moderation_alert",
   "discord.kolour_nft_alert",
   "discord.genesis_kreation_nft_alert"]

/-- The `Env` type of src/config.ts:23. -/
inductive Env where
  | development
  | testnet
  | mainnet
deriving DecidableEq, Repr

/-- Display name of an `Env`, as interpolated into log lines. -/
def envShow : Env → String
  | Env.development => "development"
  | Env.testnet => "testnet"
  | Env.mainnet => "mainnet"

/-- Model of `DisabledIndexers[config.ENV] ?? []` (src/index.ts:247-252):
in development every indexer whose name starts with `ai.` or `discord.`
is disabled by default; other environments disable nothing. -/
def disabledFor : Env → List String
  | Env.development =>
    AllIndexerKeys.filter (fun k => jsStartsWith k "ai." || jsStartsWith k "discord.")
  | _ => []

/-- Model of the `includesAll` block (src/index.ts:267-274): when `"all"`
is among the arguments, every registry key is appended to the argument
list, except disabled ones, for which a warning is recorded instead.
(The `name === "chain" && !includesAll` branch in the source is
unreachable: the loop only runs when `includesAll` is true.)
Returns the augmented arguments and the warnings logged. -/
def augmentLoop (env : Env) : List String → List String × List String → List String × List String
  | [], acc => acc
  | name :: rest, acc =>
    if listHas (disabledFor env) name then
      augmentLoop env rest
        (acc.1, acc.2 ++ ["[" ++ name ++ "] is disabled by default on \x7b" ++ envShow env ++ "\x7d"])
    else augmentLoop env rest (acc.1 ++ [name], acc.2)

def augmentArgsWithAll (env : Env) (args : List String) : List String × List String :=
  if listHas args "all" then augmentLoop env AllIndexerKeys (args, [])
  else (args, [])

/-- Model of one step of `args.flatMap` (src/index.ts:276-284): an
argument ending in `"."` expands to every registry key sharing that
prefix, and is fatal when there is none; any other argument passes
through unchanged. -/
def expandArg (arg : String) : Except String (List String) :=
  if jsEndsWith arg "." then
    let expanded := AllIndexerKeys.filter (fun k => jsStartsWith k arg)
    if expanded.isEmpty then Except.error ("No indexer with prefix: " ++ arg)
    else Except.ok expanded
  else Except.ok [arg]

/-- `args.flatMap(expandArg)` with JavaScript exception semantics: the
first thrown error aborts the whole expansion. -/
def expandAll : List String → Except String (List String)
  | [] => Except.ok []
  | a :: rest =>
    match expandArg a with
    | Except.error m => Except.error m
    | Except.ok l =>
      match expandAll rest with
      | Except.error m => Except.error m
      | Except.ok ls => Except.ok (l ++ ls)

/-- Stable insertion of a keyed element: placed before the first element
with a strictly larger key, after all elements with smaller-or-equal keys
that were already in sorted position. -/
def insertStable (x : Int × String) : List (Int × String) → List (Int × String)
  | [] => [x]
  | y :: ys => if y.1 < x.1 then y :: insertStable x ys else x :: y :: ys

/-- Stable sort by key, modelling JavaScript `sort((a, b) => a[0] - b[0])`
(stable per the ECMAScript specification). -/
def stableSortByKey (l : List (Int × String)) : List (Int × String) :=
  l.foldr insertStable []

/-- The `sorted` list of src/index.ts:285-290: deduplicated expanded
arguments tagged with their index in the registry (`-1` when absent),
stably sorted by that index. -/
def sortedArgs (expanded : List String) : List (Int × String) :=
  stableSortByKey ((dedupFirst expanded).map (fun name => (jsIndexOf AllIndexerKeys name, name)))

/-- The selection loop of src/index.ts:291-297: `"setup"` and `"all"` set
the `willSetup` flag, a name absent from the registry is fatal, and every
other name is appended to the list of indexers to start. -/
def selectLoop : List (Int × String) → Bool → List String → Except String (Bool × List String)
  | [], willSetup, acc => Except.ok (willSetup, acc)
  | (index, name) :: rest, willSetup, acc =>
    if name = "setup" ∨ name = "all" then selectLoop rest true acc
    else if index < 0 then Except.error ("Unexpected indexer: " ++ name)
    else selectLoop rest willSetup (acc ++ [name])

/-- End-to-end argument processing of src/index.ts:266-297: `"all"`
augmentation, dotted-prefix expansion, dedup + stable sort by registry
order, then the selection loop. Returns the `willSetup` flag and the
names of the indexers to start, in registry order. -/
def processArgs (env : Env) (args : List String) : Except String (Bool × List String) :=
  match expandAll (augmentArgsWithAll env args).1 with
  | Except.error m => Except.error m
  | Except.ok expanded => selectLoop (sortedArgs expanded) false []

/-- Observable top-level actions of the entry point after argument
processing. The setup phase (src/index.ts:316-325) runs `setupSchemas`,
every registered indexer's `setup` (via `Promise.all`, so their relative
order is not modelled as significant), `setupAdminTables`,
`setupMigrationTables` and `setupViews`; then each selected indexer is
started in order (src/index.ts:328-329). -/
inductive Event where
  | setupSchemas
  | setupIndexer (name : String)
  | setupAdminTables
  | setupMigrationTables
  | setupViews
  | runIndexer (name : String)
deriving DecidableEq, Repr

/-- The events of the setup phase, in program-text order. -/
def setupPhaseEvents : List Event :=
  Event.setupSchemas :: (AllIndexerKeys.map Event.setupIndexer
    ++ [Event.setupAdminTables, Event.setupMigrationTables, Event.setupViews])

/-- The top-level action sequence of the entry point for a given
environment and argument list: the setup phase when `willSetup` is set,
then the selected indexers' starts. -/
def mainEvents (env : Env) (args : List String) : Except String (List Event) :=
  match processArgs env args with
  | Except.error m => Except.error m
  | Except.ok (willSetup, ixs) =>
    Except.ok ((if willSetup then setupPhaseEvents else []) ++ ixs.map Event.runIndexer)

example : processArgs Env.development ["all"]
    = Except.ok (true, ["chain", "ipfs.project_info", "ipfs.project_announcement"]) := rfl
example : processArgs Env.mainnet ["ai.logo", "setup"]
    = Except.ok (true, ["ai.logo"]) := rfl
example : processArgs Env.mainnet ["ai."]
    = Except.ok (false, ["ai.logo", "ai.podcast", "ai.ocr", "ai.project_moderation"]) := rfl
example : processArgs Env.mainnet ["chain."]
    = Except.error "No indexer with prefix: chain." := rfl
example : processArgs Env.mainnet ["bogus"]
    = Except.error "Unexpected indexer: bogus" := rfl

/-! ## index.ts — notification handler, checkpoint flag, shutdown -/

/-- The mutable process-level state relevant to shutdown: the global
`willSaveCheckpoint` flag (src/index.ts:39), initially `true`. -/
structure ProcState where
  willSaveCheckpoint : Bool
deriving DecidableEq, Repr

/-- The initial process state: `let willSaveCheckpoint = true`. -/
def initialProcState : ProcState := ⟨true⟩

/-- Observable effect of one invocation of the `"index"` channel
notification handler. -/
inductive HandlerEffect where
  | exitProcess (code : Nat)
  | logUnrecognized (payload : String)
deriving DecidableEq, Repr

/-- Model of the `"index"` notification handler (src/index.ts:301-314):
payload `"reload"` clears `willSaveCheckpoint` and calls
`prexit.exit(174)`; any other payload logs
`Unrecognized signal: <payload>` and changes nothing. -/
def indexNotificationHandler (payload : String) (s : ProcState) : ProcState × HandlerEffect :=
  if payload = "reload" then
    ({ s with willSaveCheckpoint := false }, HandlerEffect.exitProcess 174)
  else (s, HandlerEffect.logUnrecognized payload)

/-- Process a sequence of payloads received on the `"index"` channel,
threading the process state. -/
def processPayloads (s : ProcState) : List String → ProcState
  | [] => s
  | p :: ps => processPayloads (indexNotificationHandler p s).1 ps

/-- Arguments of `ChainIndexer.stop` (src/index.ts:101-104). -/
structure StopArgs where
  immediate : Bool
  saveCheckpoint : Bool
deriving DecidableEq, Repr

/-- The chain indexer's shutdown callback (src/index.ts:100-106) calls
`stop` with `immediate: true` and `saveCheckpoint: willSaveCheckpoint`,
reading the global flag at shutdown time. -/
def chainShutdownStopArgs (s : ProcState) : StopArgs :=
  ⟨true, s.willSaveCheckpoint⟩

/-- Observable steps of the `prexit` shutdown handler
(src/index.ts:41-56). Shutdown callbacks are identified by their index in
registration (= start) order. -/
inductive ShutdownEvent where
  | callback (i : Nat)
  | releaseConnections
deriving DecidableEq, Repr

/-- The loop `for (const shutdown of [...shutdowns].reverse()) await shutdown()`. -/
def runCallbacks : List Nat → List ShutdownEvent
  | [] => []
  | c :: cs => ShutdownEvent.callback c :: runCallbacks cs

/-- Event sequence of the `prexit` handler body (src/index.ts:44-45):
every registered shutdown callback, iterated over the reversed list, then
`connections.cleanup()`. The input list is in registration order —
callbacks are pushed as each indexer is started (src/index.ts:329). -/
def prexitHandlerEvents (shutdowns : List Nat) : List ShutdownEvent :=
  runCallbacks shutdowns.reverse ++ [ShutdownEvent.releaseConnections]

/-! ## index.ts — exit codes -/

/-- Lookup table for `os.constants.signals` restricted to standard Linux
termination signal numbers. -/
def signalsLookup (sig : String) : Option Nat :=
  if sig = "SIGHUP" then some 1
  else if sig = "SIGINT" then some 2
  else if sig = "SIGQUIT" then some 3
  else if sig = "SIGABRT" then some 6
  else if sig = "SIGKILL" then some 9
  else if sig = "SIGUSR1" then some 10
  else if sig = "SIGUSR2" then some 12
  else if sig = "SIGPIPE" then some 13
  else if sig = "SIGTERM" then some 15
  else none

/-- Model of the exit-code assignment inside the `prexit` handler
(src/index.ts:46-47): when `process.exitCode` is unset and an error is
present, it becomes `os.constants.signals[signal] ?? 1`; otherwise it is
left unchanged. -/
def prexitSetExitCode (exitCode : Option Nat) (signal : String) (hasError : Bool) :
    Option Nat :=
  if exitCode = none ∧ hasError then some ((signalsLookup signal).getD 1)
  else exitCode

/-- The distinct ways the process terminates. -/
inductive TermCause where
  | noArgs
  | unknownIndexer (name : String)
  | reload
  | osSignal (sig : String)
  | cleanNoIndexers
deriving DecidableEq, Repr

/-- Modelled from the spec: the `prexit` module (src/prexit.ts, not under
src/) provides `prexit.exit(code)` / `prexit.exit0()`, which run the
handler with `process.exitCode` already set to that code, and terminates
with the OS signal's numeric code when termination is due to a signal and
the handler left `process.exitCode` unset. The visible pieces are from
src/index.ts: `process.exit(1)` on no arguments (line 263), a thrown
`Unexpected indexer` error reaching the handler as an uncaught exception,
`prexit.exit(174)` on reload (line 308), and `prexit.exit0()` when there
is nothing to run (line 332). -/
def processExitCode : TermCause → Nat
  | TermCause.noArgs => 1
  | TermCause.unknownIndexer _ =>
    (prexitSetExitCode none "uncaughtException" true).getD 1
  | TermCause.reload => (prexitSetExitCode (some 174) "exit" false).getD 174
  | TermCause.osSignal sig =>
    (prexitSetExitCode none sig false).getD ((signalsLookup sig).getD 1)
  | TermCause.cleanNoIndexers => (prexitSetExitCode (some 0) "exit" false).getD 0

example : processExitCode (TermCause.osSignal "SIGTERM") = 15 := rfl
example : processExitCode (TermCause.unknownIndexer "bogus") = 1 := rfl
example : processExitCode TermCause.reload = 174 := rfl

/-! ## indexers/ai/logo.ts -/

/-- A row of the `ai.logo` table: `cid TEXT PRIMARY KEY`,
`letter varchar(1) NOT NULL`, `etag TEXT` (nullable). -/
structure AiLogoRow where
  cid : String
  letter : String
  etag : Option String
deriving DecidableEq, Repr

/-- Model of `SELECT etag FROM ai.logo WHERE etag IS NOT NULL`
(src/indexers/ai/logo.ts:57-60). -/
def selectNonNullEtags (table : List AiLogoRow) : List String :=
  table.filterMap AiLogoRow.etag

/-- Model of the ai.logo indexer's `initialize` callback
(src/indexers/ai/logo.ts:53-63): every non-null etag stored in the
`ai.logo` table is added to the context's `fetched` set. -/
def aiLogoHydrateFetched (table : List AiLogoRow) (fetched : List String) : List String :=
  (selectNonNullEtags table).foldl setAdd fetched

/-- An entry of an S3 `ListObjectsV2` `Contents` page: `Key` and `ETag`
are both optional in the SDK's types. -/
structure S3Object where
  objKey : Option String
  objETag : Option String
deriving DecidableEq, Repr

/-- A task of the ai.logo indexer (src/indexers/ai/logo.ts:20-23). -/
structure AiLogoTask where
  key : String
  etag : Option String
deriving DecidableEq, Repr

/-- The admission test of the listing loop
(src/indexers/ai/logo.ts:128-130): an object yields a task when its ETag
is undefined or not in the `fetched` set; otherwise it is skipped. -/
def keepObject (fetched : List String) (o : S3Object) : Bool :=
  match o.objETag with
  | none => true
  | some e => !(listHas fetched e)

/-- Model of the body of `fetchTasksFromS3`
(src/indexers/ai/logo.ts:107-139), with the paginated listing flattened
into one object sequence in listing order. Each object must have a `Key`
(the source `assert`s this); kept objects contribute a task in order and
the rest increment the skip counter. -/
def fetchTasksFromS3 (fetched : List String) : List S3Object → Except String (Nat × List AiLogoTask)
  | [] => Except.ok (0, [])
  | o :: rest =>
    match o.objKey with
    | none => Except.error "S3 Object Key must be defined"
    | some k =>
      match fetchTasksFromS3 fetched rest with
      | Except.error m => Except.error m
      | Except.ok (skipped, tasks) =>
        if keepObject fetched o then Except.ok (skipped, ⟨k, o.objETag⟩ :: tasks)
        else Except.ok (skipped + 1, tasks)

/-- Declarative description of the emitted tasks: the objects passing the
admission test, in listing order, each paired with its ETag. -/
def expectedTasks (fetched : List String) (objs : List S3Object) : List AiLogoTask :=
  objs.filterMap (fun o =>
    match o.objKey with
    | none => none
    | some k => if keepObject fetched o then some ⟨k, o.objETag⟩ else none)

example : aiLogoHydrateFetched
    [⟨"c1", "A", some "e1"⟩, ⟨"c2", "B", none⟩, ⟨"c3", "C", some "e2"⟩] []
    = ["e1", "e2"] := rfl
example : fetchTasksFromS3 ["e1"]
    [⟨some "logos/k/A/x", some "e1"⟩, ⟨some "logos/k/B/y", some "e9"⟩, ⟨some "logos/k/C/z", none⟩]
    = Except.ok (1, [⟨"logos/k/B/y", some "e9"⟩, ⟨"logos/k/C/z", none⟩]) := rfl

/-! ## indexers/ai/logo.ts — schema setup -/

/-- The column list of a created table, in declaration order. -/
structure TableDef where
  columns : List (String × String)
deriving DecidableEq, Repr

/-- A database schema state: named tables and named indexes, as far as the
ai.logo setup observes and modifies them. -/
structure SchemaState where
  tables : List (String × TableDef)
  indexes : List (String × String)
deriving DecidableEq, Repr

/-- `CREATE TABLE IF NOT EXISTS`: a no-op when a table of that name
exists, otherwise the table is added. -/
def createTableIfNotExists (name : String) (td : TableDef) (s : SchemaState) : SchemaState :=
  if listHas (s.tables.map Prod.fst) name then s
  else { s with tables := s.tables ++ [(name, td)] }

/-- `CREATE INDEX IF NOT EXISTS`: a no-op when an index of that name
exists, otherwise the index is added. -/
def createIndexIfNotExists (name : String) (defn : String) (s : SchemaState) : SchemaState :=
  if listHas (s.indexes.map Prod.fst) name then s
  else { s with indexes := s.indexes ++ [(name, defn)] }

/-- The `ai.logo` table definition (src/indexers/ai/logo.ts:26-32). -/
def aiLogoTableDef : TableDef :=
  ⟨[("cid", "TEXT PRIMARY KEY"), ("letter", "varchar(1) NOT NULL"), ("etag", "TEXT")]⟩

/-- Model of `aiLogoIndexer.setup` (src/indexers/ai/logo.ts:25-37): create
the `ai.logo` table if absent, then the `logo_letter_index` index if
absent. -/
def aiLogoSetup (s : SchemaState) : SchemaState :=
  createIndexIfNotExists "logo_letter_index" "ON ai.logo(letter)"
    (createTableIfNotExists "ai.logo" aiLogoTableDef s)

example : aiLogoSetup ⟨[], []⟩
    = ⟨[("ai.logo", aiLogoTableDef)], [("logo_letter_index", "ON ai.logo(letter)")]⟩ := rfl

/-! ## Lemmas about the process-state machine -/

theorem processPayloads_false (ps : List String) :
    processPayloads ⟨false⟩ ps = ⟨false⟩ := by
  induction ps with
  | nil => rfl
  | cons p ps ih =>
    simp only [processPayloads, indexNotificationHandler]
    split <;> exact ih

theorem processPayloads_reload_mem (ps : List String) (s : ProcState)
    (h : "reload" ∈ ps) : processPayloads s ps = ⟨false⟩ := by
  induction ps generalizing s with
  | nil => cases h
  | cons p ps ih =>
    rcases List.mem_cons.mp h with rfl | hmem
    · simp only [processPayloads, indexNotificationHandler, if_pos rfl]
      exact processPayloads_false ps
    · simp only [processPayloads]
      exact ih _ hmem

theorem processPayloads_no_reload (ps : List String) (s : ProcState)
    (h : "reload" ∉ ps) : processPayloads s ps = s := by
  induction ps generalizing s with
  | nil => rfl
  | cons p ps ih =>
    have hp : p ≠ "reload" := fun hc => h (hc ▸ List.mem_cons_self p ps)
    simp only [processPayloads, indexNotificationHandler, if_neg hp]
    exact ih s fun hc => h (List.mem_cons_of_mem p hc)

/-- Claim C1: resolution of the chain indexer's `begin` position follows
strict precedence. If `CHAIN_INDEX_BEGIN` parses to an explicit value
(`"origin"`, `"tip"`, or a slot:hash point) that value is used whatever the
configured bootstrap list holds; when no explicit value is set, the first
configured bootstrap point is used; when neither exists, `config.chain()`
fails with an error naming the missing setting. -/
theorem begin_resolution_precedence (envBegin : Option String) (bootstrap : List ChainPoint) :
    (∀ v, parseChainIndexBegin envBegin = Except.ok (some v) →
      chainResolveBegin envBegin bootstrap = Except.ok v)
    ∧ (parseChainIndexBegin envBegin = Except.ok none →
        ∀ p rest, bootstrap = p :: rest →
          chainResolveBegin envBegin bootstrap = Except.ok (ChainIndexBegin.point p))
    ∧ (parseChainIndexBegin envBegin = Except.ok none → bootstrap = [] →
        chainResolveBegin envBegin bootstrap
          = Except.error "CHAIN_INDEX_BEGIN or 'bootstrap' in config must be set") := by
  refine ⟨fun v hv => ?_, fun h p rest hb => ?_, fun h hb => ?_⟩
  · simp [chainResolveBegin, hv]
  · subst hb; simp [chainResolveBegin, h]
  · subst hb; simp [chainResolveBegin, h]

/-- Witness for C1 at concrete inputs: explicit `"origin"` wins over a
present bootstrap point, an unset variable falls back to the first
bootstrap point, and both missing is the named fatal error. -/
theorem begin_resolution_precedence_witness :
    chainResolveBegin (some "origin") [⟨5, "ab"⟩] = Except.ok ChainIndexBegin.origin
    ∧ chainResolveBegin none [⟨5, "ab"⟩] = Except.ok (ChainIndexBegin.point ⟨5, "ab"⟩)
    ∧ chainResolveBegin none []
        = Except.error "CHAIN_INDEX_BEGIN or 'bootstrap' in config must be set" :=
  ⟨(begin_resolution_precedence (some "origin") [⟨5, "ab"⟩]).1 ChainIndexBegin.origin rfl,
   (begin_resolution_precedence none [⟨5, "ab"⟩]).2.1 rfl ⟨5, "ab"⟩ [] rfl,
   (begin_resolution_precedence none []).2.2 rfl rfl⟩

/-- Claim C2: after a `"reload"` payload on the process-level channel the
chain indexer's shutdown callback calls `stop` with `immediate = true` and
`saveCheckpoint = false` (the global flag is cleared before shutdown
callbacks run); on every termination path where no `"reload"` was
received, it calls `stop` with `immediate = true` and
`saveCheckpoint = true`. -/
theorem reload_clears_checkpoint_flag (payloads : List String) :
    ("reload" ∈ payloads →
      chainShutdownStopArgs (processPayloads initialProcState payloads) = ⟨true, false⟩)
    ∧ ("reload" ∉ payloads →
      chainShutdownStopArgs (processPayloads initialProcState payloads) = ⟨true, true⟩) := by
  constructor
  · intro h
    rw [processPayloads_reload_mem payloads initialProcState h]
    rfl
  · intro h
    rw [processPayloads_no_reload payloads initialProcState h]
    rfl

/-- Witness for C2: a run that received exactly one `"reload"` stops with
the checkpoint suppressed, a run that received an unrelated payload stops
with the checkpoint saved. -/
theorem reload_clears_checkpoint_flag_witness :
    chainShutdownStopArgs (processPayloads initialProcState ["reload"]) = ⟨true, false⟩
    ∧ chainShutdownStopArgs (processPayloads initialProcState ["other"]) = ⟨true, true⟩ :=
  ⟨(reload_clears_checkpoint_flag ["reload"]).1 (List.mem_singleton.mpr rfl),
   (reload_clears_checkpoint_flag ["other"]).2 (by decide)⟩

theorem runCallbacks_eq_map (l : List Nat) :
    runCallbacks l = l.map ShutdownEvent.callback := by
  induction l with
  | nil => rfl
  | cons c cs ih => simp [runCallbacks, ih]

/-- Claim C3: on process termination the shutdown callbacks collected by
the entry point run sequentially in exactly the reverse of start order,
and the shared connections are released strictly after every callback: the
event sequence is the reversed callback list followed by the connection
release, which is the last event. -/
theorem shutdown_reverse_order_then_cleanup (shutdowns : List Nat) :
    prexitHandlerEvents shutdowns
      = (shutdowns.map ShutdownEvent.callback).reverse ++ [ShutdownEvent.releaseConnections]
    ∧ (prexitHandlerEvents shutdowns).getLast? = some ShutdownEvent.releaseConnections := by
  constructor
  · simp [prexitHandlerEvents, runCallbacks_eq_map]
  · simp [prexitHandlerEvents]

/-- Claim C4: the exit-code mapping of the entry point: 1 for no arguments
or an unknown indexer name, the OS signal's numeric code on signal
termination, 174 on reload-triggered restart, 0 for a run with no
indexers to start. -/
theorem exit_code_mapping :
    processExitCode TermCause.noArgs = 1
    ∧ (∀ name, processExitCode (TermCause.unknownIndexer name) = 1)
    ∧ (∀ sig code, signalsLookup sig = some code →
        processExitCode (TermCause.osSignal sig) = code)
    ∧ processExitCode TermCause.reload = 174
    ∧ processExitCode TermCause.cleanNoIndexers = 0 := by
  refine ⟨rfl, fun name => rfl, fun sig code h => ?_, rfl, rfl⟩
  simp [processExitCode, prexitSetExitCode, h]

/-- Witness for C4 at concrete inputs, including `SIGTERM ↦ 15` and an
unknown indexer name. -/
theorem exit_code_mapping_witness :
    processExitCode (TermCause.osSignal "SIGTERM") = 15
    ∧ processExitCode (TermCause.unknownIndexer "bogus") = 1 :=
  ⟨exit_code_mapping.2.2.1 "SIGTERM" 15 rfl, exit_code_mapping.2.1 "bogus"⟩

/-- Claim C5: on the process-level `"index"` channel, payload `"reload"`
triggers an orderly shutdown with the non-standard exit code 174 (clearing
the checkpoint flag), and any other payload is logged as unrecognized,
causing no shutdown and no state change. -/
theorem index_channel_payload_handling (payload : String) (s : ProcState) :
    (payload = "reload" →
      indexNotificationHandler payload s
        = (⟨false⟩, HandlerEffect.exitProcess 174))
    ∧ (payload ≠ "reload" →
      indexNotificationHandler payload s
        = (s, HandlerEffect.logUnrecognized payload)) := by
  constructor
  · intro h; simp [indexNotificationHandler, h]
  · intro h; simp [indexNotificationHandler, h]

/-- Witness for C5: the handler at payloads `"reload"` and `"hello"`. -/
theorem index_channel_payload_handling_witness :
    indexNotificationHandler "reload" ⟨true⟩ = (⟨false⟩, HandlerEffect.exitProcess 174)
    ∧ indexNotificationHandler "hello" ⟨true⟩
        = (⟨true⟩, HandlerEffect.logUnrecognized "hello") :=
  ⟨(index_channel_payload_handling "reload" ⟨true⟩).1 rfl,
   (index_channel_payload_handling "hello" ⟨true⟩).2 (by decide)⟩

/-! ## Lemmas on the string-set model -/

theorem listHas_iff (l : List String) (x : String) : listHas l x = true ↔ x ∈ l := by
  induction l with
  | nil => simp [listHas]
  | cons a rest ih =>
    simp only [listHas, Bool.or_eq_true, beq_iff_eq, ih, List.mem_cons]
    exact or_congr eq_comm Iff.rfl

theorem listHas_append (l1 l2 : List String) (x : String) :
    listHas (l1 ++ l2) x = (listHas l1 x || listHas l2 x) := by
  induction l1 with
  | nil => simp [listHas]
  | cons a rest ih => simp [listHas, ih, Bool.or_assoc]

theorem listHas_setAdd (s : List String) (x e : String) :
    listHas (setAdd s x) e = true ↔ (listHas s e = true ∨ e = x) := by
  unfold setAdd
  split
  · rename_i h
    constructor
    · exact Or.inl
    · rintro (he | rfl)
      · exact he
      · exact h
  · rw [listHas_append]
    simp only [listHas, Bool.or_false, Bool.or_eq_true, beq_iff_eq]
    exact or_congr Iff.rfl eq_comm

theorem foldl_setAdd_mem (l : List String) (s : List String) (e : String) :
    listHas (l.foldl setAdd s) e = true ↔ (listHas s e = true ∨ e ∈ l) := by
  induction l generalizing s with
  | nil => simp
  | cons a rest ih =>
    simp only [List.foldl_cons, ih, listHas_setAdd, List.mem_cons]
    tauto

/-- Claim C6: the ai.logo indexer's context hydration and fetch skipping.
Hydration (`initialize`) populates the context's `fetched` set with
exactly the non-null etags stored in the `ai.logo` table; the S3 listing
then skips precisely the objects whose ETag is in the `fetched` set and
emits one task, in listing order, for every object whose ETag is
undefined or absent from the set. -/
theorem ai_logo_hydrate_and_skip
    (table : List AiLogoRow) (fetched : List String) (e : String) (objs : List S3Object)
    (hkeys : ∀ o ∈ objs, o.objKey ≠ none) :
    (listHas (aiLogoHydrateFetched table []) e = true ↔ ∃ r ∈ table, r.etag = some e)
    ∧ fetchTasksFromS3 fetched objs
        = Except.ok ((objs.filter (fun o => !keepObject fetched o)).length,
            expectedTasks fetched objs)
    ∧ (∀ o : S3Object, keepObject fetched o = false
        ↔ ∃ et, o.objETag = some et ∧ listHas fetched et = true) := by
  refine ⟨?_, ?_, ?_⟩
  · rw [aiLogoHydrateFetched, foldl_setAdd_mem]
    simp [selectNonNullEtags, listHas, List.mem_filterMap]
  · induction objs with
    | nil => rfl
    | cons o rest ih =>
      obtain ⟨k, hk⟩ := Option.ne_none_iff_exists'.mp (hkeys o (List.mem_cons_self o rest))
      have ihr := ih fun o' h' => hkeys o' (List.mem_cons_of_mem o h')
      simp only [fetchTasksFromS3, hk, ihr, expectedTasks, List.filterMap_cons, List.filter_cons]
      by_cases hkeep : keepObject fetched o = true
      · simp [hkeep, expectedTasks]
      · rw [Bool.not_eq_true] at hkeep
        simp [hkeep, expectedTasks, Nat.add_comm]
  · intro o
    cases h : o.objETag with
    | none => simp [keepObject, h]
    | some et => simp [keepObject, h]

/-- Witness for C6: one stored etag hydrates the set; a three-object
listing with one matching ETag skips exactly that object and emits tasks
for the other two. -/
theorem ai_logo_hydrate_and_skip_witness :
    listHas (aiLogoHydrateFetched [⟨"c1", "A", some "e1"⟩, ⟨"c2", "B", none⟩] []) "e1" = true
    ∧ fetchTasksFromS3 ["e1"]
        [⟨some "logos/k/A/x", some "e1"⟩, ⟨some "logos/k/B/y", some "e9"⟩,
         ⟨some "logos/k/C/z", none⟩]
      = Except.ok (1, [⟨"logos/k/B/y", some "e9"⟩, ⟨"logos/k/C/z", none⟩]) := by
  have h := ai_logo_hydrate_and_skip [⟨"c1", "A", some "e1"⟩, ⟨"c2", "B", none⟩] ["e1"] "e1"
    [⟨some "logos/k/A/x", some "e1"⟩, ⟨some "logos/k/B/y", some "e9"⟩,
     ⟨some "logos/k/C/z", none⟩] (by decide)
  refine ⟨h.1.mpr ⟨⟨"c1", "A", some "e1"⟩, by simp, rfl⟩, ?_⟩
  rw [h.2.1]
  rfl

/-! ## Lemmas on schema creation -/

theorem createTable_has (n : String) (td : TableDef) (s : SchemaState) :
    listHas ((createTableIfNotExists n td s).tables.map Prod.fst) n = true := by
  unfold createTableIfNotExists
  split
  · assumption
  · simp [listHas_append, listHas]

theorem createTable_noop (n : String) (td : TableDef) (s : SchemaState)
    (h : listHas (s.tables.map Prod.fst) n = true) :
    createTableIfNotExists n td s = s := by
  simp [createTableIfNotExists, h]

theorem createIndex_tables (n d : String) (s : SchemaState) :
    (createIndexIfNotExists n d s).tables = s.tables := by
  unfold createIndexIfNotExists
  split <;> rfl

theorem createIndex_has (n d : String) (s : SchemaState) :
    listHas ((createIndexIfNotExists n d s).indexes.map Prod.fst) n = true := by
  unfold createIndexIfNotExists
  split
  · assumption
  · simp [listHas_append, listHas]

theorem createIndex_noop (n d : String) (s : SchemaState)
    (h : listHas (s.indexes.map Prod.fst) n = true) :
    createIndexIfNotExists n d s = s := by
  simp [createIndexIfNotExists, h]

/-- Claim C7: the ai.logo indexer's `setup` is idempotent: from any
database schema state, running it twice yields the same schema state as
running it once — both its schema objects are created with
create-if-not-exists semantics, so the second run changes nothing. -/
theorem ai_logo_setup_idempotent (s : SchemaState) :
    aiLogoSetup (aiLogoSetup s) = aiLogoSetup s := by
  unfold aiLogoSetup
  have htab : listHas
      ((createIndexIfNotExists "logo_letter_index" "ON ai.logo(letter)"
        (createTableIfNotExists "ai.logo" aiLogoTableDef s)).tables.map Prod.fst)
      "ai.logo" = true := by
    rw [createIndex_tables]
    exact createTable_has _ _ _
  rw [createTable_noop _ _ _ htab, createIndex_noop _ _ _ (createIndex_has _ _ _)]

/-! ## Lemmas on argument processing -/

theorem augmentLoop_fst (env : Env) (keys : List String) :
    ∀ acc : List String × List String, ∃ t, (augmentLoop env keys acc).1 = acc.1 ++ t := by
  induction keys with
  | nil => exact fun acc => ⟨[], (List.append_nil _).symm⟩
  | cons k rest ih =>
    intro acc
    unfold augmentLoop
    split
    · exact ih _
    · obtain ⟨t, ht⟩ := ih (acc.1 ++ [k], acc.2)
      exact ⟨[k] ++ t, by rw [ht]; simp⟩

theorem augment_mem (env : Env) (args : List String) (arg : String) (h : arg ∈ args) :
    arg ∈ (augmentArgsWithAll env args).1 := by
  unfold augmentArgsWithAll
  split
  · obtain ⟨t, ht⟩ := augmentLoop_fst env AllIndexerKeys (args, [])
    rw [ht]
    exact List.mem_append_left _ h
  · exact h

theorem expandAll_ok_mem (args : List String) (l : List String) (arg : String)
    (h : expandAll args = Except.ok l) (hm : arg ∈ args)
    (he : jsEndsWith arg "." = false) : arg ∈ l := by
  induction args generalizing l with
  | nil => cases hm
  | cons a rest ih =>
    simp only [expandAll] at h
    cases hq : expandArg a with
    | error m => rw [hq] at h; cases h
    | ok la =>
      rw [hq] at h
      cases hr : expandAll rest with
      | error m => rw [hr] at h; cases h
      | ok ls =>
        rw [hr] at h
        simp only [Except.ok.injEq] at h
        subst h
        rcases List.mem_cons.mp hm with rfl | hmem
        · simp only [expandArg, he, Bool.false_eq_true, if_false, Except.ok.injEq] at hq
          subst hq
          exact List.mem_append_left _ (List.mem_singleton.mpr rfl)
        · exact List.mem_append_right _ (ih _ hr hmem)

theorem dedupFirst_mem (l : List String) (x : String) (h : x ∈ l) : x ∈ dedupFirst l := by
  induction l with
  | nil => cases h
  | cons a rest ih =>
    unfold dedupFirst
    rcases List.mem_cons.mp h with rfl | hmem
    · split <;> exact List.mem_cons_self _ _
    · split
      · by_cases hx : x = a
        · subst hx; exact List.mem_cons_self _ _
        · exact List.mem_cons_of_mem _
            (List.mem_filter.mpr ⟨ih hmem, by simp [hx]⟩)
      · exact List.mem_cons_of_mem _ (ih hmem)

theorem mem_insertStable (x y : Int × String) (l : List (Int × String)) :
    y ∈ insertStable x l ↔ y = x ∨ y ∈ l := by
  induction l with
  | nil => simp [insertStable]
  | cons z zs ih =>
    unfold insertStable
    split
    · simp only [List.mem_cons, ih]
      tauto
    · simp only [List.mem_cons]

theorem mem_stableSortByKey (l : List (Int × String)) (y : Int × String) (h : y ∈ l) :
    y ∈ stableSortByKey l := by
  induction l with
  | nil => cases h
  | cons z zs ih =>
    rw [show stableSortByKey (z :: zs) = insertStable z (stableSortByKey zs) from rfl,
      mem_insertStable]
    rcases List.mem_cons.mp h with rfl | hm
    · exact Or.inl rfl
    · exact Or.inr (ih hm)

theorem jsIndexOf_not_mem (l : List String) (x : String) (h : x ∉ l) :
    jsIndexOf l x = -1 := by
  induction l with
  | nil => rfl
  | cons a rest ih =>
    have ha : (a == x) = false :=
      beq_eq_false_iff_ne.mpr fun hc => h (hc ▸ List.mem_cons_self a rest)
    have hr := ih fun hc => h (List.mem_cons_of_mem a hc)
    simp [jsIndexOf, ha, hr]

theorem selectLoop_true (l : List (Int × String)) :
    ∀ acc ws' ixs, selectLoop l true acc = Except.ok (ws', ixs) → ws' = true := by
  induction l with
  | nil =>
    intro acc ws' ixs h
    simp only [selectLoop, Except.ok.injEq, Prod.mk.injEq] at h
    exact h.1.symm
  | cons q rest ih =>
    intro acc ws' ixs h
    obtain ⟨idx, name⟩ := q
    unfold selectLoop at h
    split at h
    · exact ih _ _ _ h
    · split at h
      · cases h
      · exact ih _ _ _ h

theorem selectLoop_witness_setup (l : List (Int × String)) :
    ∀ ws acc ws' ixs, (∃ p ∈ l, p.2 = "setup" ∨ p.2 = "all") →
      selectLoop l ws acc = Except.ok (ws', ixs) → ws' = true := by
  induction l with
  | nil =>
    rintro ws acc ws' ixs ⟨p, hp, -⟩ h
    cases hp
  | cons q rest ih =>
    rintro ws acc ws' ixs ⟨p, hp, hps⟩ h
    obtain ⟨idx, name⟩ := q
    unfold selectLoop at h
    split at h
    · exact selectLoop_true rest _ _ _ h
    · rename_i hcond
      have hp' : p ∈ rest := by
        rcases List.mem_cons.mp hp with rfl | h'
        · exact absurd hps hcond
        · exact h'
      split at h
      · cases h
      · exact ih _ _ _ _ ⟨p, hp', hps⟩ h

theorem selectLoop_error_of_bad (l : List (Int × String)) :
    ∀ ws acc, (∃ p ∈ l, p.2 ≠ "setup" ∧ p.2 ≠ "all" ∧ p.1 < 0) →
      ∃ m, selectLoop l ws acc = Except.error m := by
  induction l with
  | nil =>
    rintro ws acc ⟨p, hp, -⟩
    cases hp
  | cons q rest ih =>
    rintro ws acc ⟨p, hp, hbad⟩
    obtain ⟨idx, name⟩ := q
    unfold selectLoop
    split
    · rename_i hcond
      have hp' : p ∈ rest := by
        rcases List.mem_cons.mp hp with rfl | h'
        · rcases hcond with hc | hc
          · exact absurd hc hbad.1
          · exact absurd hc hbad.2.1
        · exact h'
      exact ih _ _ ⟨p, hp', hbad⟩
    · split
      · exact ⟨_, rfl⟩
      · rename_i hcond hidx
        have hp' : p ∈ rest := by
          rcases List.mem_cons.mp hp with rfl | h'
          · exact absurd hbad.2.2 hidx
          · exact h'
        exact ih _ _ ⟨p, hp', hbad⟩

theorem processArgs_env_irrelevant (env env' : Env) (args : List String)
    (h : listHas args "all" = false) : processArgs env args = processArgs env' args := by
  unfold processArgs augmentArgsWithAll
  simp [h]

/-- Claim C8: every argument ending in `"."` is replaced by all registered
indexer names sharing that prefix, and is fatal when no registered name
has that prefix; and any other argument that is not `"all"`, `"setup"`, or
a registered indexer name makes argument processing fail, so no indexer
starts. -/
theorem dotted_expansion_and_unknown_fatal (env : Env) (args : List String) (arg : String) :
    (jsEndsWith arg "." = true →
      ((∃ k ∈ AllIndexerKeys, jsStartsWith k arg = true) →
        expandArg arg = Except.ok (AllIndexerKeys.filter (fun k => jsStartsWith k arg)))
      ∧ ((∀ k ∈ AllIndexerKeys, jsStartsWith k arg = false) →
        expandArg arg = Except.error ("No indexer with prefix: " ++ arg)))
    ∧ (arg ∈ args → jsEndsWith arg "." = false → arg ≠ "all" → arg ≠ "setup" →
        arg ∉ AllIndexerKeys → ∃ m, processArgs env args = Except.error m) := by
  constructor
  · intro he
    constructor
    · rintro ⟨k, hk, hs⟩
      have hne : (AllIndexerKeys.filter (fun k => jsStartsWith k arg)) ≠ [] :=
        List.ne_nil_of_mem (List.mem_filter.mpr ⟨hk, hs⟩)
      have hie : (AllIndexerKeys.filter (fun k => jsStartsWith k arg)).isEmpty = false := by
        cases hc : (AllIndexerKeys.filter (fun k => jsStartsWith k arg)) with
        | nil => exact absurd hc hne
        | cons a l => rfl
      simp [expandArg, he, hie]
    · intro hall
      have hnil : (AllIndexerKeys.filter (fun k => jsStartsWith k arg)) = [] :=
        List.filter_eq_nil_iff.mpr fun k hk => by simp [hall k hk]
      simp [expandArg, he, hnil]
  · intro hm he hall hsetup hkeys
    have hm' := augment_mem env args arg hm
    cases hx : expandAll (augmentArgsWithAll env args).1 with
    | error m => exact ⟨m, by unfold processArgs; rw [hx]⟩
    | ok expanded =>
      have hme : arg ∈ expanded := expandAll_ok_mem _ _ _ hx hm' he
      have hsort : (jsIndexOf AllIndexerKeys arg, arg) ∈ sortedArgs expanded :=
        mem_stableSortByKey _ _ (List.mem_map_of_mem _ (dedupFirst_mem _ _ hme))
      have hbad : jsIndexOf AllIndexerKeys arg < 0 := by
        rw [jsIndexOf_not_mem _ _ hkeys]
        norm_num
      obtain ⟨m, hsel⟩ := selectLoop_error_of_bad (sortedArgs expanded) false []
        ⟨(jsIndexOf AllIndexerKeys arg, arg), hsort, hsetup, hall, hbad⟩
      exact ⟨m, by unfold processArgs; rw [hx]; exact hsel⟩

/-- Witness for C8: the prefix argument `"ai."` expands to the four
registered `ai.*` indexers; the unknown argument `"bogus"` makes argument
processing fail. -/
theorem dotted_expansion_and_unknown_fatal_witness :
    expandArg "ai." = Except.ok ["ai.logo", "ai.podcast", "ai.ocr", "ai.project_moderation"]
    ∧ ∃ m, processArgs Env.mainnet ["bogus"] = Except.error m := by
  constructor
  · have h := ((dotted_expansion_and_unknown_fatal Env.mainnet [] "ai.").1 (by decide)).1
      ⟨"ai.logo", by decide, by decide⟩
    rw [h]
    rfl
  · exact (dotted_expansion_and_unknown_fatal Env.mainnet ["bogus"] "bogus").2
      (List.mem_singleton.mpr rfl) (by decide) (by decide) (by decide) (by decide)

/-- Claim C9: passing `"all"` implies the setup directive: whenever
`"all"` appears among the arguments and the entry point proceeds, the full
setup phase (schema creation, every registered indexer's setup, admin
tables, migration tables, views) runs before any indexer is started. -/
theorem all_implies_full_setup (env : Env) (args : List String) (evs : List Event)
    (hall : "all" ∈ args) (h : mainEvents env args = Except.ok evs) :
    ∃ ixs : List String, evs = setupPhaseEvents ++ ixs.map Event.runIndexer := by
  unfold mainEvents at h
  cases hp : processArgs env args with
  | error m => rw [hp] at h; cases h
  | ok pair =>
    obtain ⟨ws, ixs⟩ := pair
    rw [hp] at h
    have hws : ws = true := by
      unfold processArgs at hp
      cases hx : expandAll (augmentArgsWithAll env args).1 with
      | error m => rw [hx] at hp; cases hp
      | ok expanded =>
        rw [hx] at hp
        have hm' : "all" ∈ expanded :=
          expandAll_ok_mem _ _ _ hx (augment_mem env args _ hall) (by decide)
        have hsort : (jsIndexOf AllIndexerKeys "all", "all") ∈ sortedArgs expanded :=
          mem_stableSortByKey _ _ (List.mem_map_of_mem _ (dedupFirst_mem _ _ hm'))
        exact selectLoop_witness_setup _ _ _ _ _ ⟨_, hsort, Or.inr rfl⟩ hp
    subst hws
    simp only [if_true, Except.ok.injEq] at h
    exact ⟨ixs, h.symm⟩

set_option maxRecDepth 4096 in
/-- Witness for C9: running with argument list `["all"]` on mainnet
yields the setup phase followed by every registered indexer's start. -/
theorem all_implies_full_setup_witness :
    ∃ ixs : List String, setupPhaseEvents ++ AllIndexerKeys.map Event.runIndexer
      = setupPhaseEvents ++ ixs.map Event.runIndexer :=
  all_implies_full_setup Env.mainnet ["all"]
    (setupPhaseEvents ++ AllIndexerKeys.map Event.runIndexer)
    (List.mem_singleton.mpr rfl) rfl

theorem dev_disabled_case (name : String)
    (h1 : name ∉ (["chain", "ipfs.project_info", "ipfs.project_announcement"] : List String))
    (h2 : ("[" ++ name ++ "] is disabled by default on {development}")
        ∈ (augmentArgsWithAll Env.development ["all"]).2)
    (h3 : processArgs Env.mainnet [name] = Except.ok (false, [name]))
    (h4 : listHas [name] "all" = false) :
    (∀ ws ixs, processArgs Env.development ["all"] = Except.ok (ws, ixs) → name ∉ ixs)
    ∧ ("[" ++ name ++ "] is disabled by default on {development}")
        ∈ (augmentArgsWithAll Env.development ["all"]).2
    ∧ (∀ env, processArgs env [name] = Except.ok (false, [name])) := by
  refine ⟨fun ws ixs h => ?_, h2, fun env => ?_⟩
  · rw [show processArgs Env.development ["all"]
        = Except.ok (true, ["chain", "ipfs.project_info", "ipfs.project_announcement"])
      from rfl] at h
    simp only [Except.ok.injEq, Prod.mk.injEq] at h
    obtain ⟨-, rfl⟩ := h
    exact h1
  · rw [processArgs_env_irrelevant env Env.mainnet [name] h4]
    exact h3

/-- Claim C10: in the development environment, `"all"` excludes every
indexer whose name starts with `ai.` or `discord.` (logging a disabled
warning instead of adding it), while explicitly naming such an indexer as
its own argument still selects it in every environment. -/
theorem dev_all_excludes_ai_discord (name : String) (hmem : name ∈ AllIndexerKeys)
    (hpre : jsStartsWith name "ai." = true ∨ jsStartsWith name "discord." = true) :
    (∀ ws ixs, processArgs Env.development ["all"] = Except.ok (ws, ixs) → name ∉ ixs)
    ∧ ("[" ++ name ++ "] is disabled by default on {development}")
        ∈ (augmentArgsWithAll Env.development ["all"]).2
    ∧ (∀ env, processArgs env [name] = Except.ok (false, [name])) := by
  simp only [AllIndexerKeys, List.mem_cons, List.not_mem_nil, or_false] at hmem
  rcases hmem with rfl | rfl | rfl | rfl | rfl | rfl | rfl | rfl | rfl | rfl | rfl | rfl | rfl |
    rfl | rfl
  · exact absurd hpre (by decide)
  · exact absurd hpre (by decide)
  · exact absurd hpre (by decide)
  all_goals exact dev_disabled_case _ (by decide) (by decide) rfl (by decide)

/-- Witness for C10 at `name := "ai.logo"`: it is excluded from a
development `"all"` run, its disabled warning is logged, and naming it
explicitly selects it in every environment. -/
theorem dev_all_excludes_ai_discord_witness :
    (∀ ws ixs, processArgs Env.development ["all"] = Except.ok (ws, ixs) → "ai.logo" ∉ ixs)
    ∧ ("[ai.logo] is disabled by default on {development}")
        ∈ (augmentArgsWithAll Env.development ["all"]).2
    ∧ (∀ env, processArgs env ["ai.logo"] = Except.ok (false, ["ai.logo"])) := by
  have h := dev_all_excludes_ai_discord "ai.logo" (by decide) (Or.inl (by decide))
  exact ⟨h.1, h.2.1, h.2.2⟩

end KreateIndex
